import Mathlib

/-!
Shallow embedding of the core of Ballcone (ballcone/monetdb_dao.py, ballcone/core.py,
ballcone/syslog_protocol.py) and proofs of the specification claims about it.

External libraries (monetdblite, pypika, dateutil, httpagentparser, geolite2,
urllib, simplejson) are modelled through the values they hand to the repository's
code: SQL execution is a state transition on a list of bound rows, parsers appear
as their already-computed results, and the SQL queries built by pypika are
modelled by their relational semantics on those rows.
-/

namespace Ballcone

/-- Carrier for Python `float` values. `Entry.as_value` passes floats through
unchanged and `sql_value_to_python` applies `float(...)`, the identity on floats,
so every operation modelled here treats these values as opaque; we use `Int` as an
opaque stand-in carrier with decidable equality. -/
abbrev PyFloat := Int

/-- A Python `datetime.date`, represented by its proleptic Gregorian ordinal, the
value of `date.toordinal()` used by `Entry.as_value` and `date.fromordinal` used by
`sql_value_to_python`. -/
structure PyDate where
  ordinal : Nat
deriving DecidableEq

/-- A UTC `datetime.datetime` at or after the Unix epoch. `sec` is
`calendar.timegm(dt.utctimetuple())`, the whole seconds since the epoch, and `usec`
is the microsecond component, which `utctimetuple()` discards. The model is
restricted to instants at or after 1970-01-01. -/
structure PyDateTime where
  sec : Nat
  usec : Nat
deriving DecidableEq

/-- The proleptic Gregorian ordinal of 1970-01-01. -/
def epochOrdinal : Nat := 719163

/-- `dt.date()` for a UTC datetime: whole days since the epoch, as an ordinal. -/
def PyDateTime.dateOf (dt : PyDateTime) : PyDate :=
  ⟨epochOrdinal + dt.sec / 86400⟩

/-- An `ipaddress.IPv4Address`/`IPv6Address` value, identified by its canonical
text `str(ip)`; `ip_address` applied to that canonical text yields the same value
back, which is the only use the DAO makes of it. -/
structure IPAddr where
  text : String
deriving DecidableEq

/-- A value bound into or read back from one SQL cell. -/
inductive SqlValue where
  | int (i : Int)
  | text (s : String)
  | real (f : PyFloat)
  | bool (b : Bool)
  | null
deriving DecidableEq

/-- `Entry` from monetdb_dao.py: the unit of ingest. Nullable fields
(`Optional[...]` annotations) are `Option`s. `status` is the `smallint` field. -/
structure Entry where
  datetime : PyDateTime
  date : PyDate
  host : String
  path : String
  status : Int
  length : Int
  generation_time : PyFloat
  referer : Option String
  ip : IPAddr
  country_iso_code : Option String
  platform_name : Option String
  platform_version : Option String
  browser_name : Option String
  browser_version : Option String
  is_robot : Option Bool
deriving DecidableEq

/-- One stored table row: the SQL value bound for each `Entry` column, in the
declared column order. -/
structure SqlRow where
  datetime : SqlValue
  date : SqlValue
  host : SqlValue
  path : SqlValue
  status : SqlValue
  length : SqlValue
  generation_time : SqlValue
  referer : SqlValue
  ip : SqlValue
  country_iso_code : SqlValue
  platform_name : SqlValue
  platform_version : SqlValue
  browser_name : SqlValue
  browser_version : SqlValue
  is_robot : SqlValue
deriving DecidableEq

/-- `Entry.as_value` on a nullable string field: `is_empty` holds for `None` and
for the empty string (`len(obj) == 0`), and empty-but-nullable values are bound as
SQL NULL. -/
def encodeOptStr : Option String → SqlValue
  | none => SqlValue.null
  | some s => if s.length = 0 then SqlValue.null else SqlValue.text s

/-- `Entry.as_value` on the nullable boolean field: `is_empty` holds only for
`None` (booleans have no `__len__`), so `False` is bound as `FALSE`, not NULL. -/
def encodeOptBool : Option Bool → SqlValue
  | none => SqlValue.null
  | some b => SqlValue.bool b

/-- `Entry.as_values`: the SQL binding of a record, column by column, following
`Entry.as_value` — datetimes as `timegm(utctimetuple())` (dropping microseconds),
dates as `toordinal()`, IP addresses as canonical text, empty-but-nullable values
as NULL, everything else unchanged. -/
def Entry.as_values (e : Entry) : SqlRow where
  datetime := SqlValue.int e.datetime.sec
  date := SqlValue.int e.date.ordinal
  host := SqlValue.text e.host
  path := SqlValue.text e.path
  status := SqlValue.int e.status
  length := SqlValue.int e.length
  generation_time := SqlValue.real e.generation_time
  referer := encodeOptStr e.referer
  ip := SqlValue.text e.ip.text
  country_iso_code := encodeOptStr e.country_iso_code
  platform_name := encodeOptStr e.platform_name
  platform_version := encodeOptStr e.platform_version
  browser_name := encodeOptStr e.browser_name
  browser_version := encodeOptStr e.browser_version
  is_robot := encodeOptBool e.is_robot

/-- `sql_value_to_python` at annotation `datetime`: `datetime.utcfromtimestamp`,
which rebuilds a whole-second UTC instant. Non-integer cells (impossible for this
NOT NULL BIGINT column) fail. -/
def decodeDatetime : SqlValue → Option PyDateTime
  | SqlValue.int i => if 0 ≤ i then some ⟨i.toNat, 0⟩ else none
  | _ => none

/-- `sql_value_to_python` at annotation `date`: `date.fromordinal`. -/
def decodeDate : SqlValue → Option PyDate
  | SqlValue.int i => if 0 ≤ i then some ⟨i.toNat⟩ else none
  | _ => none

/-- `sql_value_to_python` at annotations `smallint` and `int`: `int(value)`, the
identity on the integer cells of these NOT NULL columns. -/
def decodeInt : SqlValue → Option Int
  | SqlValue.int i => some i
  | _ => none

/-- `sql_value_to_python` at annotation `str` (NOT NULL): `str(value)`, the
identity on the text this column holds. The NULL case cannot arise on a NOT NULL
column and is treated as a decode failure. -/
def decodeStr : SqlValue → Option String
  | SqlValue.text s => some s
  | _ => none

/-- `sql_value_to_python` at annotation `float`: `float(value)`, the identity on
a DOUBLE cell. -/
def decodeFloat : SqlValue → Option PyFloat
  | SqlValue.real f => some f
  | _ => none

/-- `sql_value_to_python` at annotation `Union[IPv4Address, IPv6Address]`:
`ip_address(value)` on the stored canonical text. -/
def decodeIp : SqlValue → Option IPAddr
  | SqlValue.text s => some ⟨s⟩
  | _ => none

/-- `sql_value_to_python` at annotation `Optional[str]`: NULL decodes to absent,
and an empty-but-nullable string also decodes to absent (`is_empty` and the null
flag), otherwise the string itself. -/
def decodeOptStr : SqlValue → Option (Option String)
  | SqlValue.null => some none
  | SqlValue.text s => some (if s.length = 0 then none else some s)
  | _ => none

/-- `sql_value_to_python` at annotation `Optional[bool]`: NULL decodes to absent,
a boolean cell to itself (`is_empty(False)` is false). -/
def decodeOptBool : SqlValue → Option (Option Bool)
  | SqlValue.null => some none
  | SqlValue.bool b => some (some b)
  | _ => none

/-- `Entry.from_values`: decode one fetched row, column by column, through
`sql_value_to_python`. -/
def Entry.from_values (r : SqlRow) : Option Entry := do
  let dt ← decodeDatetime r.datetime
  let d ← decodeDate r.date
  let host ← decodeStr r.host
  let path ← decodeStr r.path
  let status ← decodeInt r.status
  let len ← decodeInt r.length
  let gt ← decodeFloat r.generation_time
  let referer ← decodeOptStr r.referer
  let ip ← decodeIp r.ip
  let ciso ← decodeOptStr r.country_iso_code
  let pn ← decodeOptStr r.platform_name
  let pv ← decodeOptStr r.platform_version
  let bn ← decodeOptStr r.browser_name
  let bv ← decodeOptStr r.browser_version
  let rob ← decodeOptBool r.is_robot
  pure ⟨dt, d, host, path, status, len, gt, referer, ip, ciso, pn, pv, bn, bv, rob⟩

/-- Normalisation of a nullable string under the encode/decode pair: an
empty-but-present string reads back as absent. -/
def normOptStr : Option String → Option String
  | none => none
  | some s => if s.length = 0 then none else some s

/-- What the encode/decode pair actually preserves of a record: the datetime is
truncated to whole seconds and empty-but-present nullable strings become absent;
every other field is kept verbatim. -/
def canonicalEntry (e : Entry) : Entry :=
  { e with
    datetime := ⟨e.datetime.sec, 0⟩
    referer := normOptStr e.referer
    country_iso_code := normOptStr e.country_iso_code
    platform_name := normOptStr e.platform_name
    platform_version := normOptStr e.platform_version
    browser_name := normOptStr e.browser_name
    browser_version := normOptStr e.browser_version }

/-- `MonetDAO.apply_dates` as the predicate the generated WHERE clause applies to
the stored `date` ordinal: both bounds present and equal yields an equality
predicate, both present and different a BETWEEN (inclusive), one bound an
inequality, no bounds no predicate. Python truthiness on a `date` object is
always true, so `if start and stop` is a presence test. -/
def apply_dates (start stop : Option Int) (d : Int) : Bool :=
  match start, stop with
  | some a, some b => if a = b then decide (d = a) else decide (a ≤ d) && decide (d ≤ b)
  | some a, none => decide (a ≤ d)
  | none, some b => decide (d ≤ b)
  | none, none => true

/-- The date predicate applied to a stored row: the `date` column holds the
ordinal. A non-integer cell (impossible for this NOT NULL column) matches no
range. -/
def rowDateMatches (start stop : Option Int) (r : SqlRow) : Bool :=
  match r.date with
  | SqlValue.int o => apply_dates start stop o
  | _ => false

/-- Sort key of `ORDER BY datetime` on a stored row. -/
def rowDatetimeKey (r : SqlRow) : Int :=
  match r.datetime with
  | SqlValue.int s => s
  | _ => 0

/-- Decode a list of fetched rows through `Entry.from_values`; the read path
fails as a whole if any row fails to decode. -/
def decodeRows : List SqlRow → Option (List Entry)
  | [] => some []
  | r :: rs =>
    match Entry.from_values r, decodeRows rs with
    | some e, some es => some (e :: es)
    | _, _ => none

/-- `MonetDAO.select`: filter the table rows by the date range, order by the
`datetime` column ascending, apply the LIMIT, and decode every row through
`Entry.from_values`. -/
def select (table : List SqlRow) (start stop : Option Int) (limit : Option Nat) :
    Option (List Entry) :=
  let chosen := (table.filter (rowDateMatches start stop)).mergeSort
    (fun a b => decide (rowDatetimeKey a ≤ rowDatetimeKey b))
  decodeRows (match limit with
    | some k => chosen.take k
    | none => chosen)

/-- One element of a grouped count result (`Count` from monetdb_dao.py, with the
date kept as the raw partition value of the `date` column). -/
structure GRow where
  date : SqlValue
  group : SqlValue
  count : Nat
deriving DecidableEq

/-- Codepoint-lexicographic order on character lists, the model of the text
collation SQL ORDER BY uses on TEXT columns. -/
def charListLe : List Char → List Char → Bool
  | [], _ => true
  | _ :: _, [] => false
  | a :: as', b :: bs' =>
    if a.toNat = b.toNat then charListLe as' bs' else decide (a.toNat < b.toNat)

/-- Type rank of a SQL value, separating the constructors in the total order
below; any one column holds values of a single rank (plus NULL). -/
def sqlRank : SqlValue → Nat
  | SqlValue.null => 0
  | SqlValue.bool _ => 1
  | SqlValue.int _ => 2
  | SqlValue.real _ => 3
  | SqlValue.text _ => 4

/-- Numeric component of a SQL value for ordering. -/
def sqlNum : SqlValue → Int
  | SqlValue.bool b => if b then 1 else 0
  | SqlValue.int i => i
  | SqlValue.real f => f
  | _ => 0

/-- Text component of a SQL value for ordering. -/
def sqlStr : SqlValue → List Char
  | SqlValue.text s => s.data
  | _ => []

/-- A total order on SQL cell values: by type rank, then numeric value, then
text. Restricted to one typed column this is the natural order SQL ORDER BY
applies to that column (integers by value, text by collation, NULL smallest). -/
def sqlLe (a b : SqlValue) : Bool :=
  if sqlRank a = sqlRank b then
    if sqlNum a = sqlNum b then charListLe (sqlStr a) (sqlStr b)
    else decide (sqlNum a < sqlNum b)
  else decide (sqlRank a < sqlRank b)

/-- The window ordering of `select_count_group`: `ORDER BY count [ASC|DESC],
group ASC` — count in the requested direction, group value ascending as the
tie-break. -/
def wLe (ascending : Bool) (a b : GRow) : Bool :=
  if a.count = b.count then sqlLe a.group b.group
  else if ascending then decide (a.count < b.count) else decide (b.count < a.count)

/-- The outer ordering of `select_count_group`: `ORDER BY date ASC, count
[ASC|DESC], group ASC`. -/
def fLe (ascending : Bool) (a b : GRow) : Bool :=
  if a.date = b.date then wLe ascending a b else sqlLe a.date b.date

/-- `COUNT([DISTINCT] col)` over the cells of one group: non-NULL cells, made
distinct when requested. -/
def countAgg (distinct : Bool) (vals : List SqlValue) : Nat :=
  let nonNull := vals.filter (fun v => !(v == SqlValue.null))
  if distinct then nonNull.dedup.length else nonNull.length

/-- The `GROUP BY date, group` keys of a row list: each distinct (date value,
group value) pair. -/
def groupKeys (rows : List SqlRow) (group : SqlRow → SqlValue) :
    List (SqlValue × SqlValue) :=
  (rows.map (fun r => (r.date, group r))).dedup

/-- `ROW_NUMBER() ... <= limit`: number the rows of one ordered partition from 1
and keep those whose row number is at most `k`. -/
def rowNumberCap (k : Nat) (l : List GRow) : List GRow :=
  ((l.enumFrom 1).filter (fun p => decide (p.1 ≤ k))).map Prod.snd

/-- The grouped inner query of `select_count_group`: filter by the date range,
group by `(date, group)`, and count the requested field per group —
`COUNT(date)` when no field is given, `DISTINCT` when requested. -/
def aggRows (rows : List SqlRow) (field : Option (SqlRow → SqlValue))
    (group : SqlRow → SqlValue) (distinct : Bool) (start stop : Option Int) :
    List GRow :=
  let filtered := rows.filter (rowDateMatches start stop)
  let countField : SqlRow → SqlValue := field.getD (fun r => r.date)
  (groupKeys filtered group).map (fun k =>
    { date := k.1, group := k.2,
      count := countAgg distinct ((filtered.filter
        (fun r => r.date == k.1 && group r == k.2)).map countField) })

/-- The window subquery of `select_count_group`: partition the grouped rows by
date value, order each partition by `(count ASC|DESC, group ASC)`, and keep the
rows whose `ROW_NUMBER()` is at most `k`. -/
def windowedRows (ascending : Bool) (k : Nat) (agg : List GRow) : List GRow :=
  ((agg.map GRow.date).dedup).flatMap (fun d =>
    rowNumberCap k ((agg.filter (fun g => g.date == d)).mergeSort (wLe ascending)))

/-- `MonetDAO.select_count_group`: without a limit, the grouped counts ordered
by `(date ASC, count ASC|DESC, group ASC)`; with a limit, the window subquery
filtered on `ROW_NUMBER() <= limit` and re-sorted by
`(date ASC, count ASC|DESC, group ASC)`. -/
def select_count_group (rows : List SqlRow) (field : Option (SqlRow → SqlValue))
    (group : SqlRow → SqlValue) (distinct : Bool) (start stop : Option Int)
    (ascending : Bool) (limit : Option Nat) : List GRow :=
  let agg := aggRows rows field group distinct start stop
  match limit with
  | none => agg.mergeSort (fLe ascending)
  | some k => (windowedRows ascending k agg).mergeSort (fLe ascending)

/-- The single modelled failure of the storage engine: `cursor.execute` raising
`monetdblite.exceptions.DatabaseError`, the exception class `MonetDAO.cursor`
rolls back on and re-raises. -/
abbrev DatabaseError := Unit

/-- One staged record together with its fault injection: `true` means the
prepared INSERT executed for this record raises `DatabaseError`. -/
abbrev StagedEntry := Entry × Bool

/-- The transaction body of `MonetDAO.batch_insert_into_from_deque` under the
`MonetDAO.transaction` context manager: records are popped from the left and
their prepared INSERTs executed one by one into the transaction's pending set;
on a `DatabaseError` the cursor rolls back — the pending inserts are discarded,
the committed table is untouched — and the error is re-raised; when the deque is
exhausted the cursor commits, making all pending rows visible at once. Returns
the committed table, the remaining deque, and the count or the re-raised error. -/
def flushDeque (committed pending : List SqlRow) (count : Nat) :
    List StagedEntry → List SqlRow × List StagedEntry × Except DatabaseError Nat
  | [] => (committed ++ pending, [], Except.ok count)
  | (e, fails) :: rest =>
    if fails then (committed, rest, Except.error ())
    else flushDeque committed (pending ++ [e.as_values]) (count + 1) rest

/-- `MonetDAO.batch_insert_into_from_deque`: an empty deque opens no transaction
and reports zero rows; otherwise the whole deque is flushed inside one
transaction. -/
def batch_insert_into_from_deque (committed : List SqlRow) :
    List StagedEntry → List SqlRow × List StagedEntry × Except DatabaseError Nat
  | [] => (committed, [], Except.ok 0)
  | e :: rest => flushDeque committed [] 0 (e :: rest)

/-- The committed tables of the database, by table name. -/
abbrev Tables := String → List SqlRow

/-- Replace one table's committed rows. -/
def updateTable (dbs : Tables) (svc : String) (rows : List SqlRow) : Tables :=
  fun t => if t = svc then rows else dbs t

/-- `Ballcone.persist`: iterate over the per-service staging queues in order and
flush each with `batch_insert_into_from_deque`. The loop body has no exception
handler, so a `DatabaseError` aborts the iteration — later services keep their
queues — and propagates to the caller. -/
def persist (dbs : Tables) :
    List (String × List StagedEntry) →
      Tables × List (String × List StagedEntry) × Except DatabaseError Unit
  | [] => (dbs, [], Except.ok ())
  | (svc, q) :: rest =>
    match batch_insert_into_from_deque (dbs svc) q with
    | (rows', qrem, Except.ok _) =>
      let r := persist (updateTable dbs svc rows') rest
      (r.1, (svc, qrem) :: r.2.1, r.2.2)
    | (rows', qrem, Except.error e) =>
      (updateTable dbs svc rows', (svc, qrem) :: rest, Except.error e)

/-- `Ballcone.persist_timer` run for a bounded number of ticks: each tick calls
`persist`; the loop has no exception handler either, so the first error ends the
coroutine with that exception and no further tick runs. -/
def persist_timer :
    Nat → Tables → List (String × List StagedEntry) →
      Tables × List (String × List StagedEntry) × Except DatabaseError Unit
  | 0, dbs, queues => (dbs, queues, Except.ok ())
  | n + 1, dbs, queues =>
    match persist dbs queues with
    | (dbs', queues', Except.ok _) => persist_timer n dbs' queues'
    | r => r

/-- Python whitespace, as stripped by `str.strip()` (ASCII part of the model). -/
def pySpace (c : Char) : Bool :=
  c = ' ' || c = '\t' || c = '\n' || c = '\r' || c = '\x0b' || c = '\x0c'

/-- `str.strip()`: drop leading and trailing whitespace. -/
def pyStrip (s : String) : String :=
  ⟨((s.data.dropWhile pySpace).reverse.dropWhile pySpace).reverse⟩

/-- `str.lower()` (ASCII part of the model). -/
def charLower (c : Char) : Char :=
  if 'A' ≤ c ∧ c ≤ 'Z' then Char.ofNat (c.toNat + 32) else c

/-- `str.lower()` applied character by character. -/
def pyLower (s : String) : String :=
  ⟨s.data.map charLower⟩

/-- Digit run of Python `int(str)`: the value of a nonempty all-digit suffix,
`none` where `int` raises `ValueError`. -/
def digitsValAux : List Char → Nat → Option Nat
  | [], acc => some acc
  | c :: cs, acc =>
    if c.isDigit then digitsValAux cs (acc * 10 + (c.toNat - 48)) else none

/-- Value of a nonempty digit run. -/
def digitsVal : List Char → Option Nat
  | [] => none
  | c :: cs => digitsValAux (c :: cs) 0

/-- Model of Python `int(str)`: surrounding whitespace stripped, an optional
sign, then one or more ASCII digits; `none` where `int` raises `ValueError`
(underscore separators and non-ASCII digits are outside the model). -/
def pyParseInt (s : String) : Option Int :=
  match (pyStrip s).data with
  | '-' :: ds => (digitsVal ds).map (fun n => -(n : Int))
  | '+' :: ds => (digitsVal ds).map (fun n => (n : Int))
  | ds => (digitsVal ds).map (fun n => (n : Int))

/-- `isint` from core.py: false for a missing or empty parameter, otherwise true
iff `int(s)` parses and its value is nonzero. -/
def isint : Option String → Bool
  | none => false
  | some s =>
    if s.length = 0 then false
    else
      match pyParseInt s with
      | some v => decide (v ≠ 0)
      | none => false

/-- `Ballcone.unwrap_top_limit`: Python truthiness on the argument — `None` and
`0` fall back to the configured default. -/
def unwrap_top_limit (t : Option Int) (top_limit : Int) : Int :=
  match t with
  | some v => if v = 0 then top_limit else v
  | none => top_limit

/-- The limit computed in each top-N branch of `Ballcone.handle_command`:
`self.unwrap_top_limit(int(parameter) if isint(parameter) else None)`. -/
def top_parameter (top_limit : Int) (parameter : Option String) : Int :=
  unwrap_top_limit (if isint parameter then parameter.bind pyParseInt else none)
    top_limit

/-- The DAO call a `Ballcone` facade method performs, with its arguments. -/
inductive QueryCall where
  | selectAverage (table field : String) (start stop : Int)
  | selectCount (table : String) (field : Option String) (start stop : Int)
  | selectCountGroup (table : String) (field group : String) (distinct : Bool)
      (ascending : Bool) (limit : Option Int) (start stop : Int)
deriving DecidableEq

/-- `Ballcone.handle_command`: dispatch the nine named operations to their DAO
calls — `time`/`bytes` to averages, the five top-N commands to grouped counts
descending with the parameter-derived limit, `visits`/`unique` to per-day counts
— and return `None` for any other command without touching the DAO. -/
def handle_command (top_limit : Int) (service command : String)
    (parameter : Option String) (start stop : Int) : Option QueryCall :=
  if command = "time" then
    some (QueryCall.selectAverage service "generation_time" start stop)
  else if command = "bytes" then
    some (QueryCall.selectAverage service "length" start stop)
  else if command = "os" then
    some (QueryCall.selectCountGroup service "ip" "platform_name" false false
      (some (top_parameter top_limit parameter)) start stop)
  else if command = "browser" then
    some (QueryCall.selectCountGroup service "ip" "browser_name" false false
      (some (top_parameter top_limit parameter)) start stop)
  else if command = "uri" then
    some (QueryCall.selectCountGroup service "ip" "path" false false
      (some (top_parameter top_limit parameter)) start stop)
  else if command = "ip" then
    some (QueryCall.selectCountGroup service "status" "ip" false false
      (some (top_parameter top_limit parameter)) start stop)
  else if command = "country" then
    some (QueryCall.selectCountGroup service "ip" "country_iso_code" false false
      (some (top_parameter top_limit parameter)) start stop)
  else if command = "visits" then
    some (QueryCall.selectCount service none start stop)
  else if command = "unique" then
    some (QueryCall.selectCount service (some "ip") start stop)
  else
    none

/-- The decoded JSON object of a well-formed datagram, with the external parsers
(dateutil's `isoparse` normalised to UTC, `urllib.parse.unquote`, `ip_address`,
the GeoIP lookup and the user-agent parser) modelled by their already-computed
results. -/
structure Content where
  service : Option String
  date : PyDateTime
  host : String
  path : String
  status : Int
  length : Int
  generation_time_milli : PyFloat
  referrer : Option String
  ip : IPAddr
  iso_code : Option String
  platform_name : Option String
  platform_version : Option String
  browser_name : Option String
  browser_version : Option String
  is_robot : Option Bool
deriving DecidableEq

/-- One received datagram, by the stage of `SyslogProtocol.datagram_received` at
which parsing can fail: undecodable UTF-8, no syslog frame match, JSON decode
error, or a decoded payload. -/
inductive Datagram where
  | badUtf8
  | noFraming
  | badJson
  | payload (c : Content)
deriving DecidableEq

/-- The observable ingest state: the per-service staging queues (`Ballcone.queue`)
and the service tables existing in the database (`tables()`). -/
structure IngestState where
  queue : List (String × List Entry)
  tables : List String
deriving DecidableEq

/-- Whether a staging queue exists for a service. -/
def hasQueue (st : IngestState) (svc : String) : Bool :=
  st.queue.any (fun p => p.1 == svc)

/-- Append a record to the tail of one service's staging queue. -/
def appendQueue (st : IngestState) (svc : String) (e : Entry) : IngestState :=
  { st with queue := st.queue.map (fun p => if p.1 = svc then (p.1, p.2 ++ [e]) else p) }

/-- `VALID_SERVICE` (`\A[\w]+\Z`): a nonempty run of word characters. -/
def isWordChar (c : Char) : Bool :=
  c.isAlphanum || c = '_'

/-- Whether a service name matches `VALID_SERVICE`. -/
def validService (s : String) : Bool :=
  decide (s.length ≠ 0) && s.data.all isWordChar

/-- The service name extracted from a payload: `content['service'].strip().lower()`. -/
def extractService (raw : String) : String :=
  pyLower (pyStrip raw)

/-- The `Entry` built at the end of `SyslogProtocol.datagram_received` from a
decoded payload: `date` is the UTC calendar date of the parsed datetime, and the
remaining fields are taken from the payload and its enrichments. -/
def buildEntry (c : Content) : Entry where
  datetime := c.date
  date := c.date.dateOf
  host := c.host
  path := c.path
  status := c.status
  length := c.length
  generation_time := c.generation_time_milli
  referer := c.referrer
  ip := c.ip
  country_iso_code := c.iso_code
  platform_name := c.platform_name
  platform_version := c.platform_version
  browser_name := c.browser_name
  browser_version := c.browser_version
  is_robot := c.is_robot

/-- `SyslogProtocol.datagram_received`: drop malformed datagrams (bad UTF-8, no
frame, bad JSON) unchanged; drop payloads with a missing or falsy `service`
field; extract the service name (strip, lowercase) and drop the datagram when it
fails `VALID_SERVICE`; otherwise lazily create the table and the staging queue
on first contact and append the built record to the service's queue. -/
def datagram_received (st : IngestState) : Datagram → IngestState
  | Datagram.badUtf8 => st
  | Datagram.noFraming => st
  | Datagram.badJson => st
  | Datagram.payload c =>
    match c.service with
    | none => st
    | some raw =>
      if raw.length = 0 then st
      else
        let service := extractService raw
        if !validService service then st
        else
          let st1 :=
            if hasQueue st service then st
            else
              { queue := st.queue ++ [(service, [])]
                tables :=
                  if st.tables.contains service then st.tables
                  else st.tables ++ [service] }
          appendQueue st1 service (buildEntry c)

/-- A record's `date` field is the UTC calendar date of its `datetime` field. -/
def dateInvariant (e : Entry) : Prop :=
  e.date = e.datetime.dateOf

/-- Fixture record, the first 2020-01-01 row of the repository's DAO test
fixture: 2020-01-01 12:00:00 UTC (epoch second 1577880000, ordinal 737425). -/
def e1 : Entry where
  datetime := ⟨1577880000, 0⟩
  date := ⟨737425⟩
  host := "example.com"
  path := "/"
  status := 200
  length := 1024
  generation_time := 100
  referer := none
  ip := ⟨"192.168.1.1"⟩
  country_iso_code := some "UNKNOWN"
  platform_name := some "Mac OS"
  platform_version := some "X 10.15"
  browser_name := some "Firefox"
  browser_version := some "75.0"
  is_robot := some false

/-- Fixture record, the second 2020-01-01 row of the repository's DAO test
fixture: 2020-01-01 12:15:00 UTC. -/
def e2 : Entry where
  datetime := ⟨1577880900, 0⟩
  date := ⟨737425⟩
  host := "example.com"
  path := "/robots.txt"
  status := 404
  length := 0
  generation_time := 10
  referer := none
  ip := ⟨"192.168.1.1"⟩
  country_iso_code := some "UNKNOWN"
  platform_name := some "Linux"
  platform_version := none
  browser_name := none
  browser_version := none
  is_robot := some true

/-- A record whose datetime carries microseconds and whose nullable `referer`
holds the empty string: both are lost by the encode/decode pair. -/
def eBad : Entry :=
  { e1 with datetime := ⟨1577880000, 500000⟩, referer := some "" }

/-- The empty ingest state. -/
def st0 : IngestState := ⟨[], []⟩

/-- Fixture payload with a valid service name. -/
def c0 : Content where
  service := some "svc"
  date := ⟨1577880000, 0⟩
  host := "example.com"
  path := "/"
  status := 200
  length := 1024
  generation_time_milli := 100
  referrer := none
  ip := ⟨"192.168.1.1"⟩
  iso_code := some "UNKNOWN"
  platform_name := some "Mac OS"
  platform_version := some "X 10.15"
  browser_name := some "Firefox"
  browser_version := some "75.0"
  is_robot := some false

/-- Fixture payload whose extracted service name keeps an interior space. -/
def cW : Content := { c0 with service := some "a b" }

/-- Fixture payload without a service field. -/
def cNoService : Content := { c0 with service := none }

/-- C5 [confirmed]: the date-range predicate applies to the `date` column with
both bounds inclusive; a missing bound is open on that side; with both bounds
absent every date matches; and when start equals stop the predicate is the
equality test against that bound. -/
theorem apply_dates_range_semantics (start stop : Option Int) (d : Int) :
    (apply_dates start stop d = true ↔ (∀ a ∈ start, a ≤ d) ∧ (∀ b ∈ stop, d ≤ b))
    ∧ (∀ a : Int, apply_dates (some a) (some a) d = decide (d = a)) := by
  constructor
  · cases start with
    | none =>
      cases stop <;> simp [apply_dates]
    | some a =>
      cases stop with
      | none => simp [apply_dates]
      | some b =>
        by_cases hab : a = b
        · subst hab
          simp only [apply_dates, if_pos rfl, Option.mem_def, Option.some.injEq,
            forall_eq']
          constructor
          · intro h
            have := of_decide_eq_true h
            omega
          · intro ⟨h1, h2⟩
            exact decide_eq_true (by omega)
        · simp only [apply_dates, if_neg hab, Option.mem_def, Option.some.injEq,
            forall_eq', Bool.and_eq_true, decide_eq_true_eq]
  · intro a
    simp [apply_dates]

/-- C10 [confirmed]: a command that is none of the nine named operations makes
`handle_command` return no result and perform no DAO call, for every service,
parameter and date range. -/
theorem handle_command_unknown (top_limit : Int) (service command : String)
    (parameter : Option String) (start stop : Int)
    (h : command ∉ (["time", "bytes", "os", "browser", "uri", "ip", "country",
      "visits", "unique"] : List String)) :
    handle_command top_limit service command parameter start stop = none := by
  simp only [List.mem_cons, List.not_mem_nil, or_false, not_or] at h
  obtain ⟨h1, h2, h3, h4, h5, h6, h7, h8, h9⟩ := h
  simp [handle_command, h1, h2, h3, h4, h5, h6, h7, h8, h9]

/-- Witness for C10 at the concrete command `stats`. -/
theorem handle_command_unknown_witness :
    ("stats" ∉ (["time", "bytes", "os", "browser", "uri", "ip", "country",
      "visits", "unique"] : List String))
    ∧ handle_command 5 "svc" "stats" none 0 0 = none :=
  ⟨by decide, handle_command_unknown 5 "svc" "stats" none 0 0 (by decide)⟩

/-- C7 counterexample: the parameter `-1` is present but not a positive integer,
yet `handle_command` does not fall back to the default `top_limit = 5`: the limit
it passes to the grouped count is `-1`. -/
theorem top_parameter_negative_counterexample :
    handle_command 5 "svc" "os" (some "-1") 0 0 =
      some (QueryCall.selectCountGroup "svc" "ip" "platform_name" false false
        (some (-1)) 0 0)
    ∧ ((-1 : Int) ≠ 5) ∧ ¬(0 < (-1 : Int)) := by
  refine ⟨by decide, by decide, by decide⟩

/-- An empty string never parses as an integer. -/
theorem pyParseInt_empty (s : String) (h : s.length = 0) : pyParseInt s = none := by
  have hd : s.data = [] := by
    have : s.data.length = 0 := h
    exact List.length_eq_zero.mp this
  have hstrip : (pyStrip s).data = [] := by
    simp [pyStrip, hd]
  unfold pyParseInt
  rw [hstrip]
  rfl

/-- C7 [corrected]: the limit used by the five top-N commands is the parameter's
integer value whenever the parameter parses as a nonzero integer — including
negative values — and the configured default `top_limit` otherwise (absent,
empty, non-numeric, or zero). Each top-N branch of `handle_command` passes
exactly this limit to its grouped count. -/
theorem handle_command_top_parameter (top_limit : Int) (service : String)
    (parameter : Option String) (start stop : Int) :
    top_parameter top_limit parameter =
      (match parameter with
       | none => top_limit
       | some s =>
         match pyParseInt s with
         | some v => if v = 0 then top_limit else v
         | none => top_limit)
    ∧ handle_command top_limit service "os" parameter start stop =
        some (QueryCall.selectCountGroup service "ip" "platform_name" false false
          (some (top_parameter top_limit parameter)) start stop)
    ∧ handle_command top_limit service "browser" parameter start stop =
        some (QueryCall.selectCountGroup service "ip" "browser_name" false false
          (some (top_parameter top_limit parameter)) start stop)
    ∧ handle_command top_limit service "uri" parameter start stop =
        some (QueryCall.selectCountGroup service "ip" "path" false false
          (some (top_parameter top_limit parameter)) start stop)
    ∧ handle_command top_limit service "ip" parameter start stop =
        some (QueryCall.selectCountGroup service "status" "ip" false false
          (some (top_parameter top_limit parameter)) start stop)
    ∧ handle_command top_limit service "country" parameter start stop =
        some (QueryCall.selectCountGroup service "ip" "country_iso_code" false
          false (some (top_parameter top_limit parameter)) start stop) := by
  refine ⟨?_, by simp [handle_command], by simp [handle_command],
    by simp [handle_command], by simp [handle_command], by simp [handle_command]⟩
  cases parameter with
  | none => rfl
  | some s =>
    by_cases hlen : s.length = 0
    · simp [top_parameter, isint, hlen, unwrap_top_limit, pyParseInt_empty s hlen]
    · cases hp : pyParseInt s with
      | none => simp [top_parameter, isint, hlen, hp, unwrap_top_limit]
      | some v =>
        by_cases hv : v = 0
        · subst hv
          simp [top_parameter, isint, hlen, hp, unwrap_top_limit]
        · simp [top_parameter, isint, hlen, hp, hv, unwrap_top_limit,
            Option.bind]

/-- The transaction body commits the whole deque when no insert fails. -/
theorem flushDeque_ok (committed pending : List SqlRow) (count : Nat)
    (q : List StagedEntry) (h : ∀ p ∈ q, p.2 = false) :
    flushDeque committed pending count q =
      (committed ++ pending ++ q.map (fun p => p.1.as_values), [],
        Except.ok (count + q.length)) := by
  induction q generalizing pending count with
  | nil => simp [flushDeque]
  | cons p rest ih =>
    obtain ⟨e, b⟩ := p
    have hb : b = false := h (e, b) (by simp)
    subst hb
    rw [flushDeque, if_neg (by simp)]
    rw [ih (pending ++ [e.as_values]) (count + 1) (fun p hp => h p (by simp [hp]))]
    simp only [List.map_cons, List.length_cons, Prod.mk.injEq, Except.ok.injEq]
    refine ⟨by simp, trivial, by omega⟩

/-- The transaction body rolls back at the first failing insert: the committed
table is untouched, the deque keeps only the records after the failing one, and
the error is re-raised. -/
theorem flushDeque_error (committed pending : List SqlRow) (count : Nat)
    (qpre : List StagedEntry) (e : Entry) (qpost : List StagedEntry)
    (h : ∀ p ∈ qpre, p.2 = false) :
    flushDeque committed pending count (qpre ++ (e, true) :: qpost) =
      (committed, qpost, Except.error ()) := by
  induction qpre generalizing pending count with
  | nil => simp [flushDeque]
  | cons p rest ih =>
    obtain ⟨e', b⟩ := p
    have hb : b = false := h (e', b) (by simp)
    subst hb
    rw [List.cons_append, flushDeque, if_neg (by simp)]
    exact ih (pending ++ [e'.as_values]) (count + 1) (fun p hp => h p (by simp [hp]))

/-- A nonempty deque is flushed through the transaction body. -/
theorem batch_insert_eq_flush (committed : List SqlRow) (q : List StagedEntry)
    (hq : q ≠ []) :
    batch_insert_into_from_deque committed q = flushDeque committed [] 0 q := by
  cases q with
  | nil => exact absurd rfl hq
  | cons p rest => rfl

/-- C2 [confirmed]: for every table state and nonempty record batch, the batch
insert runs inside a single transaction: if every insert succeeds, the whole
batch is committed at once and the row count returned; if any insert raises a
`DatabaseError`, the transaction is rolled back — the committed table is exactly
what it was before the batch — and the exception is re-raised, so no partial
batch is ever visible as committed rows. -/
theorem batch_insert_transactional (committed : List SqlRow)
    (q : List StagedEntry) (hq : q ≠ []) :
    ((∀ p ∈ q, p.2 = false) →
      batch_insert_into_from_deque committed q =
        (committed ++ q.map (fun p => p.1.as_values), [], Except.ok q.length))
    ∧ (∀ qpre e qpost, q = qpre ++ (e, true) :: qpost →
        (∀ p ∈ qpre, p.2 = false) →
        batch_insert_into_from_deque committed q =
          (committed, qpost, Except.error ())) := by
  constructor
  · intro h
    rw [batch_insert_eq_flush committed q hq, flushDeque_ok committed [] 0 q h]
    simp
  · intro qpre e qpost hsplit hpre
    rw [batch_insert_eq_flush committed q hq, hsplit,
      flushDeque_error committed [] 0 qpre e qpost hpre]

/-- Witness for C2 on the two-record fixture batch: a clean batch commits both
rows, and a batch whose second insert fails leaves the table empty. -/
theorem batch_insert_transactional_witness :
    ([(e1, false), (e2, false)] : List StagedEntry) ≠ []
    ∧ batch_insert_into_from_deque [] [(e1, false), (e2, false)] =
        ([e1.as_values, e2.as_values], [], Except.ok 2)
    ∧ batch_insert_into_from_deque [] [(e1, false), (e2, true)] =
        ([], [], Except.error ()) := by
  refine ⟨by simp, ?_, ?_⟩
  · have h := (batch_insert_transactional [] [(e1, false), (e2, false)]
      (by simp)).1 (by simp)
    simpa using h
  · have h := (batch_insert_transactional [] [(e1, false), (e2, true)]
      (by simp)).2 [(e1, false)] e2 [] rfl (by simp)
    simpa using h

/-- A batch whose flush hits a failing insert leaves the committed table
untouched, keeps only the not-yet-popped records, and re-raises the error. -/
theorem batch_insert_error_shape (committed : List SqlRow)
    (qpre : List StagedEntry) (e : Entry) (qpost : List StagedEntry)
    (hpre : ∀ p ∈ qpre, p.2 = false) :
    batch_insert_into_from_deque committed (qpre ++ (e, true) :: qpost) =
      (committed, qpost, Except.error ()) := by
  rw [batch_insert_eq_flush committed _ (by simp)]
  exact flushDeque_error committed [] 0 qpre e qpost hpre

/-- C3 counterexample: with one staged queue whose first insert fails, three
timer ticks leave the error propagated out of the first `persist` call, the
persist loop dead, the already-popped record lost, the later record still
staged and never flushed, and the table empty — the error is not absorbed and
the loop does not continue to subsequent intervals. -/
theorem persist_error_counterexample :
    (persist_timer 3 (fun _ => []) [("example", [(e1, true), (e2, false)])]).2.2 =
      Except.error ()
    ∧ (persist_timer 3 (fun _ => []) [("example", [(e1, true), (e2, false)])]).2.1 =
        [("example", [(e2, false)])]
    ∧ (persist_timer 3 (fun _ => []) [("example", [(e1, true), (e2, false)])]).1
        "example" = [] := by
  refine ⟨rfl, rfl, rfl⟩

/-- C3 [corrected]: when a flush raises a `DatabaseError`, the records of that
flush are lost — the queue for that service keeps only the records not yet
popped and is not refilled — and the committed tables are unchanged; but the
error is not caught or logged by `persist`: it propagates out of `persist`,
aborts the iteration (later services keep their queues untouched), and
terminates the persist timer loop, so no subsequent interval runs. -/
theorem persist_db_error (dbs : Tables) (svc : String) (qpre : List StagedEntry)
    (e : Entry) (qpost : List StagedEntry)
    (rest : List (String × List StagedEntry)) (n : Nat)
    (hpre : ∀ p ∈ qpre, p.2 = false) :
    (persist dbs ((svc, qpre ++ (e, true) :: qpost) :: rest)).2.1 =
      (svc, qpost) :: rest
    ∧ (∀ t, (persist dbs ((svc, qpre ++ (e, true) :: qpost) :: rest)).1 t = dbs t)
    ∧ (persist dbs ((svc, qpre ++ (e, true) :: qpost) :: rest)).2.2 =
        Except.error ()
    ∧ persist_timer (n + 1) dbs ((svc, qpre ++ (e, true) :: qpost) :: rest) =
        persist dbs ((svc, qpre ++ (e, true) :: qpost) :: rest) := by
  have hp : persist dbs ((svc, qpre ++ (e, true) :: qpost) :: rest) =
      (updateTable dbs svc (dbs svc), (svc, qpost) :: rest, Except.error ()) := by
    rw [persist, batch_insert_error_shape (dbs svc) qpre e qpost hpre]
  have hupd : ∀ t, updateTable dbs svc (dbs svc) t = dbs t := by
    intro t
    unfold updateTable
    by_cases h : t = svc
    · subst h; simp
    · simp [h]
  refine ⟨by rw [hp], by rw [hp]; exact hupd, by rw [hp], ?_⟩
  rw [persist_timer, hp]

/-- Witness for C3 on the fixture queue whose first insert fails. -/
theorem persist_db_error_witness :
    (∀ p ∈ ([] : List StagedEntry), p.2 = false)
    ∧ (persist (fun _ => []) [("example", [] ++ (e1, true) :: [(e2, false)])]).2.1 =
        ("example", [(e2, false)]) :: []
    ∧ (persist (fun _ => []) [("example", [] ++ (e1, true) :: [(e2, false)])]).2.2 =
        Except.error () :=
  ⟨by simp,
    (persist_db_error (fun _ => []) "example" [] e1 [(e2, false)] [] 0 (by simp)).1,
    (persist_db_error (fun _ => []) "example" [] e1 [(e2, false)] [] 0
      (by simp)).2.2.1⟩

/-- Decoding inverts encoding on a nullable string up to normalisation: an
empty-but-present string reads back as absent. -/
theorem decodeOptStr_encodeOptStr (o : Option String) :
    decodeOptStr (encodeOptStr o) = some (normOptStr o) := by
  cases o with
  | none => rfl
  | some s =>
    by_cases h : s.length = 0 <;>
      simp [encodeOptStr, decodeOptStr, normOptStr, h]

/-- Decoding inverts encoding on the nullable boolean exactly. -/
theorem decodeOptBool_encodeOptBool (o : Option Bool) :
    decodeOptBool (encodeOptBool o) = some o := by
  cases o <;> rfl

/-- The encode/decode pair of the DAO reproduces exactly the canonicalised
record: the datetime truncated to whole seconds and empty-but-present nullable
strings turned absent. -/
theorem from_values_as_values (e : Entry) :
    Entry.from_values e.as_values = some (canonicalEntry e) := by
  obtain ⟨dt, d, host, path, status, len, gt, referer, ip, ciso, pn, pv, bn, bv,
    rob⟩ := e
  simp [Entry.from_values, Entry.as_values, canonicalEntry, decodeDatetime,
    decodeDate, decodeStr, decodeInt, decodeFloat, decodeIp,
    decodeOptStr_encodeOptStr, decodeOptBool_encodeOptBool]

/-- A row list that decodes row by row decodes as a whole, and each decoded
record is in the output. -/
theorem decodeRows_all_some (rows : List SqlRow)
    (h : ∀ row ∈ rows, ∃ e, Entry.from_values row = some e) :
    ∃ out, decodeRows rows = some out
      ∧ ∀ row ∈ rows, ∀ e, Entry.from_values row = some e → e ∈ out := by
  induction rows with
  | nil => exact ⟨[], rfl, by simp⟩
  | cons r rs ih =>
    obtain ⟨e, he⟩ := h r (by simp)
    obtain ⟨out, hout, hmem⟩ := ih (fun row hr => h row (by simp [hr]))
    refine ⟨e :: out, ?_, ?_⟩
    · simp [decodeRows, he, hout]
    · intro row hr e' he'
      rcases List.mem_cons.mp hr with h1 | h1
      · subst h1
        rw [he] at he'
        simp only [Option.some.injEq] at he'
        simp [he']
      · exact List.mem_cons_of_mem _ (hmem row h1 e' he')

/-- C4 counterexample: the fixture record with 500000 microseconds on its
datetime and an empty (but present) `referer` is accepted by ingest and encodes
to a row that the date-equal select returns — but the returned row is the
canonicalised record, not the original: the microseconds and the empty string
are gone, so no row equal to the original is contained in the result. -/
theorem select_roundtrip_counterexample :
    select [eBad.as_values] (some 737425) (some 737425) none =
      some [canonicalEntry eBad]
    ∧ eBad ∉ [canonicalEntry eBad] := by
  have h1 : rowDateMatches (some 737425) (some 737425) eBad.as_values = true := by
    decide
  refine ⟨?_, by decide⟩
  simp [select, List.filter, h1, List.mergeSort, decodeRows, from_values_as_values]

/-- C4 [corrected]: a successfully persisted record `r` is found again by
`select` over the day `r.date` — as a row equal to `r` — provided the
encode/decode canonicalisation fixes `r`, i.e. `r.datetime` has no sub-second
component and no nullable string field of `r` holds the empty string. Without
that proviso the returned row is `canonicalEntry r` instead (see the
counterexample). -/
theorem select_roundtrip (entries : List Entry) (r : Entry) (hmem : r ∈ entries)
    (hcanon : canonicalEntry r = r) :
    ∃ out,
      select (entries.map Entry.as_values) (some r.date.ordinal)
        (some r.date.ordinal) none = some out ∧ r ∈ out := by
  have hdec : ∀ row ∈ ((entries.map Entry.as_values).filter
      (rowDateMatches (some r.date.ordinal) (some r.date.ordinal))).mergeSort
      (fun a b => decide (rowDatetimeKey a ≤ rowDatetimeKey b)),
      ∃ e, Entry.from_values row = some e := by
    intro row hrow
    have : row ∈ entries.map Entry.as_values :=
      (List.filter_sublist _).mem (List.mem_mergeSort.mp hrow)
    obtain ⟨e, _, rfl⟩ := List.mem_map.mp this
    exact ⟨canonicalEntry e, from_values_as_values e⟩
  obtain ⟨out, hout, hcontains⟩ := decodeRows_all_some _ hdec
  refine ⟨out, ?_, ?_⟩
  · simp only [select]
    exact hout
  · have hrowmem : r.as_values ∈ ((entries.map Entry.as_values).filter
        (rowDateMatches (some r.date.ordinal) (some r.date.ordinal))).mergeSort
        (fun a b => decide (rowDatetimeKey a ≤ rowDatetimeKey b)) := by
      rw [List.mem_mergeSort, List.mem_filter]
      refine ⟨List.mem_map_of_mem Entry.as_values hmem, ?_⟩
      simp [rowDateMatches, Entry.as_values, apply_dates]
    have := hcontains r.as_values hrowmem (canonicalEntry r)
      (from_values_as_values r)
    rwa [hcanon] at this

/-- Witness for C4 on the whole-second fixture record. -/
theorem select_roundtrip_witness :
    e1 ∈ [e1] ∧ canonicalEntry e1 = e1
    ∧ ∃ out, select ([e1].map Entry.as_values) (some e1.date.ordinal)
        (some e1.date.ordinal) none = some out ∧ e1 ∈ out :=
  ⟨by decide, by decide, select_roundtrip [e1] e1 (by decide) (by decide)⟩

/-- The record built from a payload derives its `date` from its `datetime`. -/
theorem buildEntry_dateInvariant (c : Content) : dateInvariant (buildEntry c) :=
  rfl

/-- Branch equations of `datagram_received` on a payload, by the value of the
payload's service field. -/
theorem datagram_received_service_eq (st : IngestState) (c : Content) :
    (c.service = none → datagram_received st (Datagram.payload c) = st)
    ∧ (∀ raw, c.service = some raw →
        datagram_received st (Datagram.payload c) =
          (if raw.length = 0 then st
           else
            if !validService (extractService raw) then st
            else
              appendQueue
                (if hasQueue st (extractService raw) then st
                 else
                  { queue := st.queue ++ [(extractService raw, [])]
                    tables :=
                      if st.tables.contains (extractService raw) then st.tables
                      else st.tables ++ [extractService raw] })
                (extractService raw) (buildEntry c))) := by
  obtain ⟨cs, c2, c3, c4, c5, c6, c7, c8, c9, c10, c11, c12, c13, c14, c15⟩ := c
  constructor
  · intro h
    have hcs : cs = none := h
    subst hcs
    rfl
  · intro raw h
    have hcs : cs = some raw := h
    subst hcs
    rfl

/-- C9 [confirmed]: every record the ingest pipeline places in a staging queue
has `date` equal to the UTC calendar date of its `datetime` (the handler sets
`date := current_datetime.date()`), and the invariant survives persistence: the
record read back from a persisted row satisfies it as well (truncating the
datetime to whole seconds does not change its calendar date). -/
theorem ingest_date_derivation :
    (∀ st d, (∀ svc q, (svc, q) ∈ st.queue → ∀ e ∈ q, dateInvariant e) →
      ∀ svc q, (svc, q) ∈ (datagram_received st d).queue → ∀ e ∈ q, dateInvariant e)
    ∧ (∀ e : Entry, dateInvariant e →
        ∀ e', Entry.from_values e.as_values = some e' → dateInvariant e') := by
  constructor
  · intro st d hinv svc q hq e he
    cases d with
    | badUtf8 => exact hinv svc q hq e he
    | noFraming => exact hinv svc q hq e he
    | badJson => exact hinv svc q hq e he
    | payload c =>
      obtain ⟨cs, cf⟩ : ∃ cs, c.service = cs := ⟨c.service, rfl⟩
      cases cs with
      | none =>
        rw [(datagram_received_service_eq st c).1 cf] at hq
        exact hinv svc q hq e he
      | some raw =>
        rw [(datagram_received_service_eq st c).2 raw cf] at hq
        by_cases hlen : raw.length = 0
        · rw [if_pos hlen] at hq
          exact hinv svc q hq e he
        · rw [if_neg hlen] at hq
          by_cases hval : !validService (extractService raw)
          · rw [if_pos hval] at hq
            exact hinv svc q hq e he
          · rw [if_neg hval] at hq
            set st1 :=
              if hasQueue st (extractService raw) then st
              else
                { queue := st.queue ++ [(extractService raw, [])]
                  tables :=
                    if st.tables.contains (extractService raw) then st.tables
                    else st.tables ++ [extractService raw] } with hst1
            have hinv1 : ∀ svc q, (svc, q) ∈ st1.queue → ∀ e ∈ q, dateInvariant e := by
              intro svc' q' hq' e' he'
              rw [hst1] at hq'
              by_cases hh : hasQueue st (extractService raw)
              · rw [if_pos hh] at hq'
                exact hinv svc' q' hq' e' he'
              · rw [if_neg hh] at hq'
                simp only [List.mem_append, List.mem_singleton,
                  Prod.mk.injEq] at hq'
                rcases hq' with hq' | ⟨-, hq2⟩
                · exact hinv svc' q' hq' e' he'
                · subst hq2
                  exact absurd he' (List.not_mem_nil e')
            simp only [appendQueue, List.mem_map] at hq
            obtain ⟨p, hp, hfp⟩ := hq
            obtain ⟨p1, p2⟩ := p
            by_cases hps : p1 = extractService raw
            · rw [if_pos hps] at hfp
              injection hfp with h1 h2
              subst h2
              rcases List.mem_append.mp he with he1 | he1
              · exact hinv1 p1 p2 hp e he1
              · rw [List.mem_singleton] at he1
                subst he1
                exact buildEntry_dateInvariant c
            · rw [if_neg hps] at hfp
              injection hfp with h1 h2
              subst h2
              exact hinv1 p1 p2 hp e he
  · intro e hinv e' he'
    rw [from_values_as_values e] at he'
    simp only [Option.some.injEq] at he'
    subst he'
    simpa [canonicalEntry, dateInvariant, PyDateTime.dateOf] using hinv

/-- Witness for C9: the handler on the empty state and the fixture payload
stages exactly one record, and that record satisfies the invariant; so does its
decoded persisted row. -/
theorem ingest_date_derivation_witness :
    (∀ svc q, (svc, q) ∈ st0.queue → ∀ e ∈ q, dateInvariant e)
    ∧ dateInvariant (buildEntry c0)
    ∧ dateInvariant e1
    ∧ dateInvariant (canonicalEntry e1) := by
  refine ⟨by simp [st0], ?_, by unfold dateInvariant; decide, ?_⟩
  · exact ingest_date_derivation.1 st0 (Datagram.payload c0) (by simp [st0])
      (extractService "svc") [buildEntry c0] (by decide) (buildEntry c0) (by decide)
  · exact ingest_date_derivation.2 e1 (by unfold dateInvariant; decide)
      (canonicalEntry e1) (from_values_as_values e1)

/-- C6 [confirmed]: a datagram whose extracted service name (stripped and
lowercased) still contains whitespace is rejected: the handler returns with the
ingest state unchanged — no staging queue is created or modified and no table is
created. Whitespace never matches `\w`, so such a name fails `VALID_SERVICE`. -/
theorem service_whitespace_rejected (st : IngestState) (c : Content)
    (raw : String) (hserv : c.service = some raw)
    (hws : ∃ ch ∈ (extractService raw).data, pySpace ch = true) :
    datagram_received st (Datagram.payload c) = st := by
  obtain ⟨ch, hch, hsp⟩ := hws
  have hword : isWordChar ch = false := by
    have hcases : ch = ' ' ∨ ch = '\t' ∨ ch = '\n' ∨ ch = '\r' ∨ ch = '\x0b'
        ∨ ch = '\x0c' := by
      simpa [pySpace, or_assoc] using hsp
    rcases hcases with rfl | rfl | rfl | rfl | rfl | rfl <;> decide
  have hval : validService (extractService raw) = false := by
    unfold validService
    have : (extractService raw).data.all isWordChar = false :=
      List.all_eq_false.mpr ⟨ch, hch, by simp [hword]⟩
    simp [this]
  rw [(datagram_received_service_eq st c).2 raw hserv]
  by_cases hlen : raw.length = 0
  · rw [if_pos hlen]
  · rw [if_neg hlen]
    rw [if_pos (by simp [hval])]

/-- Witness for C6: the payload with service name `"a b"` leaves the empty state
unchanged. -/
theorem service_whitespace_rejected_witness :
    cW.service = some "a b"
    ∧ (∃ ch ∈ (extractService "a b").data, pySpace ch = true)
    ∧ datagram_received st0 (Datagram.payload cW) = st0 :=
  ⟨by decide, by decide,
    service_whitespace_rejected st0 cW "a b" (by decide) (by decide)⟩

/-- C8 [confirmed]: every malformed datagram — undecodable UTF-8, no syslog
frame, bad JSON, missing or empty service field, or a service name failing
validation — is dropped with the observable state unchanged: no staging queue is
created or modified and the set of tables is unchanged. -/
theorem malformed_datagram_dropped (st : IngestState) :
    datagram_received st Datagram.badUtf8 = st
    ∧ datagram_received st Datagram.noFraming = st
    ∧ datagram_received st Datagram.badJson = st
    ∧ (∀ c : Content, c.service = none →
        datagram_received st (Datagram.payload c) = st)
    ∧ (∀ c : Content, ∀ raw, c.service = some raw → raw.length = 0 →
        datagram_received st (Datagram.payload c) = st)
    ∧ (∀ c : Content, ∀ raw, c.service = some raw →
        validService (extractService raw) = false →
        datagram_received st (Datagram.payload c) = st) := by
  refine ⟨rfl, rfl, rfl, ?_, ?_, ?_⟩
  · intro c h
    exact (datagram_received_service_eq st c).1 h
  · intro c raw h hlen
    rw [(datagram_received_service_eq st c).2 raw h, if_pos hlen]
  · intro c raw h hval
    rw [(datagram_received_service_eq st c).2 raw h]
    by_cases hlen : raw.length = 0
    · rw [if_pos hlen]
    · rw [if_neg hlen, if_pos (by simp [hval])]

/-- Witness for C8 at the empty state and concrete malformed inputs. -/
theorem malformed_datagram_dropped_witness :
    datagram_received st0 Datagram.badUtf8 = st0
    ∧ cNoService.service = none
    ∧ datagram_received st0 (Datagram.payload cNoService) = st0 :=
  ⟨(malformed_datagram_dropped st0).1, by decide,
    (malformed_datagram_dropped st0).2.2.2.1 cNoService (by decide)⟩

/-- Characters with equal codepoints are equal. -/
theorem char_toNat_inj (c d : Char) (h : c.toNat = d.toNat) : c = d := by
  have := congrArg Char.ofNat h
  rwa [Char.ofNat_toNat, Char.ofNat_toNat] at this

/-- The codepoint-lexicographic order is transitive. -/
theorem charListLe_trans : ∀ a b c : List Char, charListLe a b = true →
    charListLe b c = true → charListLe a c = true := by
  intro a
  induction a with
  | nil => intro b c _ _; rfl
  | cons x xs ih =>
    intro b c hab hbc
    cases b with
    | nil => simp [charListLe] at hab
    | cons y ys =>
      cases c with
      | nil => simp [charListLe] at hbc
      | cons z zs =>
        simp only [charListLe] at hab hbc ⊢
        by_cases hxy : x.toNat = y.toNat
        · rw [if_pos hxy] at hab
          by_cases hyz : y.toNat = z.toNat
          · rw [if_pos hyz] at hbc
            rw [if_pos (hxy.trans hyz)]
            exact ih ys zs hab hbc
          · rw [if_neg hyz] at hbc
            have h2 := of_decide_eq_true hbc
            rw [if_neg (by omega)]
            exact decide_eq_true (by omega)
        · rw [if_neg hxy] at hab
          have h1 := of_decide_eq_true hab
          by_cases hyz : y.toNat = z.toNat
          · rw [if_neg (by omega)]
            exact decide_eq_true (by omega)
          · rw [if_neg hyz] at hbc
            have h2 := of_decide_eq_true hbc
            rw [if_neg (by omega)]
            exact decide_eq_true (by omega)

/-- The codepoint-lexicographic order is total. -/
theorem charListLe_total : ∀ a b : List Char,
    charListLe a b = true ∨ charListLe b a = true := by
  intro a
  induction a with
  | nil => intro b; left; rfl
  | cons x xs ih =>
    intro b
    cases b with
    | nil => right; rfl
    | cons y ys =>
      simp only [charListLe]
      by_cases hxy : x.toNat = y.toNat
      · rw [if_pos hxy, if_pos hxy.symm]
        exact ih ys
      · rw [if_neg hxy, if_neg (fun h => hxy h.symm)]
        rcases Nat.lt_or_ge x.toNat y.toNat with h | h
        · left; exact decide_eq_true h
        · right; exact decide_eq_true (by omega)

/-- The codepoint-lexicographic order is antisymmetric. -/
theorem charListLe_antisymm : ∀ a b : List Char, charListLe a b = true →
    charListLe b a = true → a = b := by
  intro a
  induction a with
  | nil =>
    intro b _ hba
    cases b with
    | nil => rfl
    | cons y ys => simp [charListLe] at hba
  | cons x xs ih =>
    intro b hab hba
    cases b with
    | nil => simp [charListLe] at hab
    | cons y ys =>
      simp only [charListLe] at hab hba
      by_cases hxy : x.toNat = y.toNat
      · rw [if_pos hxy] at hab
        rw [if_pos hxy.symm] at hba
        rw [char_toNat_inj x y hxy, ih ys hab hba]
      · rw [if_neg hxy] at hab
        rw [if_neg (fun h => hxy h.symm)] at hba
        have h1 := of_decide_eq_true hab
        have h2 := of_decide_eq_true hba
        omega

/-- SQL values agreeing on rank, numeric and text components are equal. -/
theorem sqlValue_eq_of_components (a b : SqlValue) (hr : sqlRank a = sqlRank b)
    (hn : sqlNum a = sqlNum b) (hs : sqlStr a = sqlStr b) : a = b := by
  cases a <;> cases b <;> simp_all [sqlRank, sqlNum, sqlStr]
  · exact String.ext hs
  · rename_i x y
    cases x <;> cases y <;> simp_all

/-- The SQL value order is transitive. -/
theorem sqlLe_trans (a b c : SqlValue) (hab : sqlLe a b = true)
    (hbc : sqlLe b c = true) : sqlLe a c = true := by
  unfold sqlLe at hab hbc ⊢
  by_cases h1 : sqlRank a = sqlRank b
  · rw [if_pos h1] at hab
    by_cases h2 : sqlRank b = sqlRank c
    · rw [if_pos h2] at hbc
      rw [if_pos (h1.trans h2)]
      by_cases h3 : sqlNum a = sqlNum b
      · rw [if_pos h3] at hab
        by_cases h4 : sqlNum b = sqlNum c
        · rw [if_pos h4] at hbc
          rw [if_pos (h3.trans h4)]
          exact charListLe_trans _ _ _ hab hbc
        · rw [if_neg h4] at hbc
          have h5 := of_decide_eq_true hbc
          rw [if_neg (by omega)]
          exact decide_eq_true (by omega)
      · rw [if_neg h3] at hab
        have h5 := of_decide_eq_true hab
        by_cases h4 : sqlNum b = sqlNum c
        · rw [if_neg (by omega)]
          exact decide_eq_true (by omega)
        · rw [if_neg h4] at hbc
          have h6 := of_decide_eq_true hbc
          rw [if_neg (by omega)]
          exact decide_eq_true (by omega)
    · rw [if_neg h2] at hbc
      have h5 := of_decide_eq_true hbc
      rw [if_neg (by omega)]
      exact decide_eq_true (by omega)
  · rw [if_neg h1] at hab
    have h5 := of_decide_eq_true hab
    by_cases h2 : sqlRank b = sqlRank c
    · rw [if_neg (by omega)]
      exact decide_eq_true (by omega)
    · rw [if_neg h2] at hbc
      have h6 := of_decide_eq_true hbc
      rw [if_neg (by omega)]
      exact decide_eq_true (by omega)

/-- The SQL value order is total. -/
theorem sqlLe_total (a b : SqlValue) : sqlLe a b = true ∨ sqlLe b a = true := by
  unfold sqlLe
  by_cases h1 : sqlRank a = sqlRank b
  · rw [if_pos h1, if_pos h1.symm]
    by_cases h2 : sqlNum a = sqlNum b
    · rw [if_pos h2, if_pos h2.symm]
      exact charListLe_total _ _
    · rw [if_neg h2, if_neg (fun h => h2 h.symm)]
      rcases lt_or_gt_of_ne h2 with h | h
      · left; exact decide_eq_true h
      · right; exact decide_eq_true h
  · rw [if_neg h1, if_neg (fun h => h1 h.symm)]
    rcases Nat.lt_or_ge (sqlRank a) (sqlRank b) with h | h
    · left; exact decide_eq_true h
    · right; exact decide_eq_true (by omega)

/-- The SQL value order is antisymmetric. -/
theorem sqlLe_antisymm (a b : SqlValue) (hab : sqlLe a b = true)
    (hba : sqlLe b a = true) : a = b := by
  unfold sqlLe at hab hba
  by_cases h1 : sqlRank a = sqlRank b
  · rw [if_pos h1] at hab
    rw [if_pos h1.symm] at hba
    by_cases h2 : sqlNum a = sqlNum b
    · rw [if_pos h2] at hab
      rw [if_pos h2.symm] at hba
      exact sqlValue_eq_of_components a b h1 h2 (charListLe_antisymm _ _ hab hba)
    · rw [if_neg h2] at hab
      rw [if_neg (fun h => h2 h.symm)] at hba
      have h3 := of_decide_eq_true hab
      have h4 := of_decide_eq_true hba
      omega
  · rw [if_neg h1] at hab
    rw [if_neg (fun h => h1 h.symm)] at hba
    have h3 := of_decide_eq_true hab
    have h4 := of_decide_eq_true hba
    omega

/-- Unfolding of the window order as a disjunction. -/
theorem wLe_true_iff (asc : Bool) (a b : GRow) :
    wLe asc a b = true ↔
      (a.count = b.count ∧ sqlLe a.group b.group = true)
      ∨ (a.count ≠ b.count ∧
          (if asc = true then a.count < b.count else b.count < a.count)) := by
  unfold wLe
  by_cases h : a.count = b.count
  · simp [h]
  · cases asc <;> simp [h]

/-- The window order is transitive. -/
theorem wLe_trans (asc : Bool) (a b c : GRow) (hab : wLe asc a b = true)
    (hbc : wLe asc b c = true) : wLe asc a c = true := by
  rw [wLe_true_iff] at hab hbc ⊢
  rcases hab with ⟨he1, hg1⟩ | ⟨hn1, hl1⟩
  · rcases hbc with ⟨he2, hg2⟩ | ⟨hn2, hl2⟩
    · exact Or.inl ⟨he1.trans he2, sqlLe_trans _ _ _ hg1 hg2⟩
    · refine Or.inr ⟨by omega, ?_⟩
      cases asc <;> simp_all
  · rcases hbc with ⟨he2, hg2⟩ | ⟨hn2, hl2⟩
    · refine Or.inr ⟨by omega, ?_⟩
      cases asc <;> simp_all
    · cases asc <;> simp_all <;> (refine Or.inr ⟨by omega, by omega⟩)

/-- The window order is total. -/
theorem wLe_total (asc : Bool) (a b : GRow) :
    wLe asc a b = true ∨ wLe asc b a = true := by
  rw [wLe_true_iff, wLe_true_iff]
  by_cases h : a.count = b.count
  · rcases sqlLe_total a.group b.group with hg | hg
    · exact Or.inl (Or.inl ⟨h, hg⟩)
    · exact Or.inr (Or.inl ⟨h.symm, hg⟩)
  · cases asc
    · rcases Nat.lt_or_ge a.count b.count with hl | hl
      · exact Or.inr (Or.inr ⟨fun hh => h hh.symm, by simp; omega⟩)
      · exact Or.inl (Or.inr ⟨h, by simp; omega⟩)
    · rcases Nat.lt_or_ge a.count b.count with hl | hl
      · exact Or.inl (Or.inr ⟨h, by simp; omega⟩)
      · exact Or.inr (Or.inr ⟨fun hh => h hh.symm, by simp; omega⟩)

/-- Unfolding of the outer order as a disjunction. -/
theorem fLe_true_iff (asc : Bool) (a b : GRow) :
    fLe asc a b = true ↔
      (a.date = b.date ∧ wLe asc a b = true)
      ∨ (a.date ≠ b.date ∧ sqlLe a.date b.date = true) := by
  unfold fLe
  by_cases h : a.date = b.date <;> simp [h]

/-- The outer order is transitive. -/
theorem fLe_trans (asc : Bool) (a b c : GRow) (hab : fLe asc a b = true)
    (hbc : fLe asc b c = true) : fLe asc a c = true := by
  rw [fLe_true_iff] at hab hbc ⊢
  rcases hab with ⟨he1, hw1⟩ | ⟨hn1, hs1⟩
  · rcases hbc with ⟨he2, hw2⟩ | ⟨hn2, hs2⟩
    · exact Or.inl ⟨he1.trans he2, wLe_trans asc a b c hw1 hw2⟩
    · exact Or.inr ⟨he1 ▸ hn2, he1 ▸ hs2⟩
  · rcases hbc with ⟨he2, hw2⟩ | ⟨hn2, hs2⟩
    · exact Or.inr ⟨he2 ▸ hn1, he2 ▸ hs1⟩
    · refine Or.inr ⟨?_, sqlLe_trans _ _ _ hs1 hs2⟩
      intro hac
      exact hn1 (sqlLe_antisymm _ _ hs1 (hac ▸ hs2))

/-- The outer order is total. -/
theorem fLe_total (asc : Bool) (a b : GRow) :
    fLe asc a b = true ∨ fLe asc b a = true := by
  rw [fLe_true_iff, fLe_true_iff]
  by_cases h : a.date = b.date
  · rcases wLe_total asc a b with hw | hw
    · exact Or.inl (Or.inl ⟨h, hw⟩)
    · exact Or.inr (Or.inl ⟨h.symm, hw⟩)
  · rcases sqlLe_total a.date b.date with hs | hs
    · exact Or.inl (Or.inr ⟨h, hs⟩)
    · exact Or.inr (Or.inr ⟨fun hh => h hh.symm, hs⟩)

/-- On rows of one date partition the outer order is the window order. -/
theorem fLe_eq_wLe_of_date_eq (asc : Bool) (a b : GRow) (h : a.date = b.date) :
    fLe asc a b = wLe asc a b := by
  unfold fLe
  rw [if_pos h]

/-- Row numbers strictly past the cap leave nothing. -/
theorem enumFrom_filter_gt (k : Nat) : ∀ (l : List GRow) (s : Nat), k < s →
    (l.enumFrom s).filter (fun p => decide (p.1 ≤ k)) = [] := by
  intro l
  induction l with
  | nil => intro s _; rfl
  | cons x xs ih =>
    intro s hs
    rw [List.enumFrom_cons, List.filter_cons_of_neg (by simp; omega)]
    exact ih (s + 1) (by omega)

/-- Filtering an enumeration on its 1-based position being at most `k` keeps
exactly the first positions. -/
theorem enumFrom_filter_take : ∀ (l : List GRow) (k s : Nat), 1 ≤ s →
    ((l.enumFrom s).filter (fun p => decide (p.1 ≤ k))).map Prod.snd =
      l.take (k + 1 - s) := by
  intro l
  induction l with
  | nil => intro k s _; simp
  | cons x xs ih =>
    intro k s hs
    rw [List.enumFrom_cons]
    by_cases hsk : s ≤ k
    · rw [List.filter_cons_of_pos (by simp [hsk]), List.map_cons,
        ih k (s + 1) (by omega)]
      have harith : k + 1 - s = (k + 1 - (s + 1)) + 1 := by omega
      rw [harith, List.take_succ_cons]
    · rw [List.filter_cons_of_neg (by simp; omega),
        enumFrom_filter_gt k xs (s + 1) (by omega)]
      have harith : k + 1 - s = 0 := by omega
      rw [harith]
      rfl

/-- The `ROW_NUMBER() <= k` filter keeps exactly the first `k` rows of the
ordered partition. -/
theorem rowNumberCap_eq_take (k : Nat) (l : List GRow) :
    rowNumberCap k l = l.take k := by
  unfold rowNumberCap
  rw [enumFrom_filter_take l k 1 (le_refl 1)]
  simp

/-- Every row the window keeps for partition `d` carries date `d`. -/
theorem windowChunk_date (asc : Bool) (k : Nat) (agg : List GRow) (d : SqlValue) :
    ∀ g ∈ rowNumberCap k ((agg.filter (fun g => g.date == d)).mergeSort (wLe asc)),
      g.date = d := by
  intro g hg
  rw [rowNumberCap_eq_take] at hg
  have h1 := (List.take_sublist _ _).subset hg
  have h2 := List.mem_mergeSort.mp h1
  exact eq_of_beq (List.mem_filter.mp h2).2

/-- The window keeps at most `k` rows of one partition. -/
theorem windowChunk_length_le (asc : Bool) (k : Nat) (agg : List GRow)
    (d : SqlValue) :
    (rowNumberCap k ((agg.filter (fun g => g.date == d)).mergeSort (wLe asc))).length
      ≤ k := by
  rw [rowNumberCap_eq_take]
  exact List.length_take_le k _

/-- Summing per-partition counts over distinct partition values: only the one
partition equal to `d` can contribute, and it contributes at most `k`. -/
theorem sum_countP_chunks (p : GRow → Bool) (f : SqlValue → List GRow) (k : Nat)
    (d : SqlValue) (hle : List.countP p (f d) ≤ k)
    (hz : ∀ d', d' ≠ d → List.countP p (f d') = 0) :
    ∀ ds : List SqlValue, ds.Nodup →
      ((ds.map fun d' => List.countP p (f d')).sum) ≤ k := by
  intro ds hnd
  induction ds with
  | nil => simp
  | cons d0 ds ih =>
    rw [List.map_cons, List.sum_cons]
    obtain ⟨hd0, hnd'⟩ := List.nodup_cons.mp hnd
    by_cases h : d0 = d
    · subst h
      have hz2 : ((ds.map fun d' => List.countP p (f d')).sum) = 0 := by
        apply List.sum_eq_zero
        intro x hx
        obtain ⟨d', hd', rfl⟩ := List.mem_map.mp hx
        exact hz d' (fun hdd => hd0 (hdd ▸ hd'))
      omega
    · rw [hz d0 h]
      simpa using ih hnd'

/-- The windowed rows contain at most `k` rows of any one date. -/
theorem windowedRows_countP_le (asc : Bool) (k : Nat) (agg : List GRow)
    (d : SqlValue) :
    List.countP (fun g => g.date == d) (windowedRows asc k agg) ≤ k := by
  unfold windowedRows
  rw [List.countP_flatMap]
  apply sum_countP_chunks (fun g => g.date == d)
    (fun d' => rowNumberCap k ((agg.filter (fun g => g.date == d')).mergeSort (wLe asc)))
    k d
  · calc List.countP (fun g => g.date == d) _
        ≤ (rowNumberCap k ((agg.filter (fun g => g.date == d)).mergeSort (wLe asc))).length :=
          List.countP_le_length _
      _ ≤ k := windowChunk_length_le asc k agg d
  · intro d' hd'
    apply List.countP_eq_zero.mpr
    intro g hg
    have := windowChunk_date asc k agg d' g hg
    simp [this, hd']
  · exact List.nodup_dedup _

/-- C1 [confirmed]: with a positive limit `k`, `select_count_group` returns, for
each date value independently, at most `k` grouped rows; the whole result is
sorted by `(date ASC, count ASC|DESC per the flag, group ASC)` (the order `fLe`);
and, restricted to any single date, the rows are sorted by
`(count ASC|DESC, group ASC)` (the order `wLe`) — count in the requested
direction with the group value as ascending tie-break. This holds for every
table contents, count field, group column, distinct flag, and date range. -/
theorem select_count_group_top_n (rows : List SqlRow)
    (field : Option (SqlRow → SqlValue)) (group : SqlRow → SqlValue)
    (distinct : Bool) (start stop : Option Int) (ascending : Bool) (k : Nat)
    (_hk : 0 < k) :
    (∀ d : SqlValue,
      ((select_count_group rows field group distinct start stop ascending
        (some k)).filter (fun g => g.date == d)).length ≤ k)
    ∧ (select_count_group rows field group distinct start stop ascending
        (some k)).Pairwise (fun a b => fLe ascending a b = true)
    ∧ (∀ d : SqlValue,
      ((select_count_group rows field group distinct start stop ascending
        (some k)).filter (fun g => g.date == d)).Pairwise
        (fun a b => wLe ascending a b = true)) := by
  have hshape : select_count_group rows field group distinct start stop ascending
      (some k) =
      (windowedRows ascending k
        (aggRows rows field group distinct start stop)).mergeSort (fLe ascending) :=
    rfl
  have hsorted : (select_count_group rows field group distinct start stop
      ascending (some k)).Pairwise (fun a b => fLe ascending a b = true) := by
    rw [hshape]
    exact List.sorted_mergeSort (fun a b c => fLe_trans ascending a b c)
      (fun a b => by rcases fLe_total ascending a b with h | h <;> simp [h]) _
  refine ⟨?_, hsorted, ?_⟩
  · intro d
    rw [← List.countP_eq_length_filter, hshape,
      (List.mergeSort_perm _ (fLe ascending)).countP_eq]
    exact windowedRows_countP_le ascending k
      (aggRows rows field group distinct start stop) d
  · intro d
    have hpw : ((select_count_group rows field group distinct start stop ascending
        (some k)).filter (fun g => g.date == d)).Pairwise
        (fun a b => fLe ascending a b = true) :=
      List.Pairwise.sublist (List.filter_sublist _) hsorted
    apply hpw.imp_of_mem
    intro a b ha hb hab
    have hda : a.date = d := eq_of_beq (List.mem_filter.mp ha).2
    have hdb : b.date = d := eq_of_beq (List.mem_filter.mp hb).2
    rwa [fLe_eq_wLe_of_date_eq ascending a b (hda.trans hdb.symm)] at hab

/-- Witness for C1: two single-row groups on one date with limit 1 — the
theorem's cap and orderings at a concrete instance. -/
theorem select_count_group_top_n_witness :
    0 < 1
    ∧ ((∀ d : SqlValue,
      ((select_count_group [e1.as_values, e2.as_values] (some (fun r => r.ip))
        (fun r => r.platform_name) false none none true
        (some 1)).filter (fun g => g.date == d)).length ≤ 1)
    ∧ (select_count_group [e1.as_values, e2.as_values] (some (fun r => r.ip))
        (fun r => r.platform_name) false none none true
        (some 1)).Pairwise (fun a b => fLe true a b = true)
    ∧ (∀ d : SqlValue,
      ((select_count_group [e1.as_values, e2.as_values] (some (fun r => r.ip))
        (fun r => r.platform_name) false none none true
        (some 1)).filter (fun g => g.date == d)).Pairwise
        (fun a b => wLe true a b = true))) :=
  ⟨by decide,
    select_count_group_top_n [e1.as_values, e2.as_values] (some (fun r => r.ip))
      (fun r => r.platform_name) false none none true 1 (by decide)⟩

end Ballcone
